import Mathlib

/-!
Verification of the entitlement + resumable-search core of the
TxT-File-Generator Telegram bot (`src/app.py`).

The Python source is shallowly embedded below:
* timestamps are modelled as `Int` (wall-clock values; only order and
  addition of the cooldown window matter),
* the PostgreSQL tables `keys` and `users` become association lists with
  the SQL statements translated to list operations,
* the in-memory dict-of-dict session storage becomes an association list
  keyed by `(user_id, keyword)`,
* Python's `kw in line.lower()` substring test and `range`-loop indexing
  (including negative-index semantics) are reproduced explicitly.
-/

namespace TxtBot

/-- Constant `ADMIN_ID` from `src/app.py` (default value of the env variable). -/
def ADMIN_ID : Nat := 7011151235

/-- Constant `SEARCH_LINE_LIMIT = 200`: exact lines to send per page. -/
def SEARCH_LINE_LIMIT : Nat := 200

/-- Constant `SEARCH_COOLDOWN_MINUTES = 5`; timestamps are modelled in minutes. -/
def SEARCH_COOLDOWN_MINUTES : Int := 5

/-! ### Substring matching: Python `needle in hay` -/

/-- Boolean list-prefix test. -/
def isPrefixB : List Char → List Char → Bool
  | [], _ => true
  | _ :: _, [] => false
  | a :: as, b :: bs => decide (a = b) && isPrefixB as bs

/-- Boolean substring containment on character lists: Python's `in`. -/
def containsB (needle : List Char) : List Char → Bool
  | [] => isPrefixB needle []
  | c :: rest => isPrefixB needle (c :: rest) || containsB needle rest

/-- Matching test `kw in line.lower()` from `scan_next_page_for_session`
(`line.lower()` is taken character-wise). -/
def lineMatches (kw line : String) : Bool :=
  containsB kw.toList (line.toList.map Char.toLower)

/-! ### Search sessions -/

/-- One entry of `user_sessions[user_id][kw]`:
`{'last_scanned_pos': int, 'delivered': int, 'finished': bool}`. -/
structure Session where
  last_scanned_pos : Int
  delivered : Nat
  finished : Bool
deriving DecidableEq, Repr

/-- The session dict created by `start_or_resume_session`:
`{"last_scanned_pos": -1, "delivered": 0, "finished": False}`. -/
def freshSession : Session :=
  { last_scanned_pos := -1, delivered := 0, finished := false }

/-- Python list indexing `l[i]`: non-negative indices are direct,
negative indices wrap from the end, anything further is an IndexError
(`none`). -/
def pyGet (l : List String) (i : Int) : Option String :=
  if 0 ≤ i then l.get? i.toNat
  else
    let j : Int := (l.length : Int) + i
    if 0 ≤ j then l.get? j.toNat else none

/-- Helper for `intRange`: the `n` consecutive integers starting at `lo`. -/
def intRangeAux (lo : Int) : Nat → List Int
  | 0 => []
  | n + 1 => lo :: intRangeAux (lo + 1) n

/-- Python `range(lo, hi)` as a list of `Int` indices. -/
def intRange (lo hi : Int) : List Int :=
  intRangeAux lo (hi - lo).toNat

/-- The `for idx in range(start_index, n)` loop body of
`scan_next_page_for_session`, with its early `break`.  Arguments after
the index list are the loop-carried variables `scanned_pos`, `results`,
`mcount`; the result is `(results, more_exists, scanned_pos)`, or
`none` if an index read raises. -/
def scanLoop (logs : List String) (kw : String) (limit : Nat) :
    List Int → Int → List String → Nat → Option (List String × Bool × Int)
  | [], scanned, results, _ => some (results, false, scanned)
  | idx :: rest, _, results, mcount =>
    match pyGet logs idx with
    | none => none
    | some line =>
      if lineMatches kw line then
        let results' := if results.length < limit then results ++ [line] else results
        if limit < mcount + 1 then some (results', true, idx)
        else scanLoop logs kw limit rest idx results' (mcount + 1)
      else scanLoop logs kw limit rest idx results mcount

/-- Function `scan_next_page_for_session` (lines 278–311 of `src/app.py`)
acting on a single session value: scan from `last_scanned_pos + 1`,
collect up to `limit` matching lines, remember the last scanned position and
set `finished` when the end of the corpus was reached.  The page-size
constant `SEARCH_LINE_LIMIT` is kept as the parameter `limit`. -/
def scanSession (logs : List String) (limit : Nat) (kw : String) (sess : Session) :
    Option (List String × Bool × Session) :=
  match scanLoop logs kw limit
      (intRange (sess.last_scanned_pos + 1) (logs.length : Int))
      sess.last_scanned_pos [] 0 with
  | none => none
  | some (results, more, scanned) =>
    some (results, more,
      { sess with
        last_scanned_pos := scanned,
        finished := if (logs.length : Int) - 1 ≤ scanned then true else sess.finished })

/-- Pure recursion used to reason about `scanLoop`: processes the
remaining corpus suffix with the running match count `mcount` and
returns `(page, more_exists, consumed)` where `consumed` counts the
lines examined. -/
def pureScan (kw : String) (limit : Nat) : List String → Nat → List String × Bool × Nat
  | [], _ => ([], false, 0)
  | line :: rest, mcount =>
    if lineMatches kw line then
      if limit < mcount + 1 then ([], true, 1)
      else
        let p := pureScan kw limit rest (mcount + 1)
        (line :: p.1, p.2.1, p.2.2 + 1)
    else
      let p := pureScan kw limit rest mcount
      (p.1, p.2.1, p.2.2 + 1)

/-! ### Relating the index loop to the pure recursion -/

theorem intRange_eq_nil {lo hi : Int} (h : hi ≤ lo) : intRange lo hi = [] := by
  unfold intRange
  have h1 : (hi - lo).toNat = 0 := by omega
  rw [h1]
  rfl

theorem intRange_cons {lo hi : Int} (h : lo < hi) :
    intRange lo hi = lo :: intRange (lo + 1) hi := by
  unfold intRange
  have h1 : (hi - lo).toNat = (hi - (lo + 1)).toNat + 1 := by omega
  rw [h1]
  rfl

theorem mem_intRangeAux {i lo : Int} :
    ∀ {n : Nat}, i ∈ intRangeAux lo n → lo ≤ i ∧ i < lo + n := by
  intro n
  induction n generalizing lo with
  | zero => intro h; simp [intRangeAux] at h
  | succ n ih =>
    intro h
    simp only [intRangeAux, List.mem_cons] at h
    rcases h with rfl | h
    · omega
    · have := ih h
      omega

theorem mem_intRange {lo hi i : Int} (h : i ∈ intRange lo hi) : lo ≤ i ∧ i < hi := by
  unfold intRange at h
  have := mem_intRangeAux h
  omega

theorem pyGet_natCast (l : List String) (s : Nat) : pyGet l ((s : Nat) : Int) = l.get? s := by
  simp [pyGet]

theorem pureScan_consumed_le (kw : String) (limit : Nat) :
    ∀ (l : List String) (m : Nat), (pureScan kw limit l m).2.2 ≤ l.length := by
  intro l
  induction l with
  | nil => intro m; simp [pureScan]
  | cons line rest ih =>
    intro m
    have h1 := ih (m + 1)
    have h2 := ih m
    simp only [pureScan, List.length_cons]
    cases hm : lineMatches kw line <;> by_cases hl : limit < m + 1 <;>
      simp [hl] <;> omega

theorem pureScan_page_sublist (kw : String) (limit : Nat) :
    ∀ (l : List String) (m : Nat),
      ((pureScan kw limit l m).1).Sublist
        ((l.take (pureScan kw limit l m).2.2).filter (lineMatches kw)) := by
  intro l
  induction l with
  | nil => intro m; simp [pureScan]
  | cons line rest ih =>
    intro m
    cases hm : lineMatches kw line
    · simp only [pureScan, hm, Bool.false_eq_true, if_false, List.take_succ_cons,
        List.filter_cons, ite_false]
      exact ih m
    · by_cases hl : limit < m + 1
      · simp [pureScan, hm, hl]
      · simp only [pureScan, hm, hl, eq_self_iff_true, if_true, if_false,
          List.take_succ_cons, List.filter_cons, ite_true]
        exact List.Sublist.cons₂ line (ih (m + 1))

theorem scanLoop_eq_pure (logs : List String) (kw : String) (limit : Nat) :
    ∀ (fuel s : Nat) (prev : Int) (res : List String) (m : Nat),
      logs.length - s ≤ fuel →
      res.length = min m limit →
      scanLoop logs kw limit (intRange ((s : Nat) : Int) (logs.length : Int)) prev res m =
        some (res ++ (pureScan kw limit (logs.drop s) m).1,
              (pureScan kw limit (logs.drop s) m).2.1,
              if (pureScan kw limit (logs.drop s) m).2.2 = 0 then prev
              else (s : Int) + ((pureScan kw limit (logs.drop s) m).2.2 : Int) - 1) := by
  intro fuel
  induction fuel with
  | zero =>
    intro s prev res m hfuel hres
    have hle : logs.length ≤ s := by omega
    rw [intRange_eq_nil (by exact_mod_cast hle), List.drop_eq_nil_of_le hle]
    simp [scanLoop, pureScan]
  | succ fuel ih =>
    intro s prev res m hfuel hres
    by_cases hslen : logs.length ≤ s
    · rw [intRange_eq_nil (by exact_mod_cast hslen), List.drop_eq_nil_of_le hslen]
      simp [scanLoop, pureScan]
    · push_neg at hslen
      have hdrop := List.drop_eq_getElem_cons hslen
      have hrange : intRange ((s : Nat) : Int) (logs.length : Int) =
          ((s : Nat) : Int) :: intRange (((s + 1 : Nat) : Nat) : Int) (logs.length : Int) := by
        rw [intRange_cons (by exact_mod_cast hslen)]
        norm_cast
      have hget : pyGet logs ((s : Nat) : Int) = some logs[s] := by
        rw [pyGet_natCast, List.get?_eq_getElem?, List.getElem?_eq_getElem hslen]
      rw [hrange, hdrop]
      simp only [scanLoop, hget]
      cases hm : lineMatches kw logs[s]
      · have ihs := ih (s + 1) ((s : Nat) : Int) res m (by omega) hres
        simp only [hm, Bool.false_eq_true, if_false, ihs, pureScan]
        refine congrArg some (Prod.ext rfl (Prod.ext rfl ?_))
        by_cases hc : (pureScan kw limit (logs.drop (s + 1)) m).2.2 = 0
        · simp [hc]
        · have hnz : ¬ ((pureScan kw limit (logs.drop (s + 1)) m).2.2 + 1 = 0) := by omega
          simp only [hc, hnz, if_false]
          push_cast
          ring
      · by_cases hl : limit < m + 1
        · have hresfull : ¬ res.length < limit := by omega
          simp only [hm, eq_self_iff_true, if_true, hl, hresfull, if_false, pureScan]
          simp
        · have hresroom : res.length < limit := by omega
          have ihs := ih (s + 1) ((s : Nat) : Int) (res ++ [logs[s]]) (m + 1)
            (by omega) (by simp only [List.length_append, List.length_singleton, hres]; omega)
          simp only [hm, eq_self_iff_true, if_true, hl, hresroom, if_false, ihs, pureScan]
          refine congrArg some (Prod.ext ?_ (Prod.ext rfl ?_))
          · simp
          · by_cases hc : (pureScan kw limit (logs.drop (s + 1)) (m + 1)).2.2 = 0
            · simp [hc]
            · have hnz : ¬ ((pureScan kw limit (logs.drop (s + 1)) (m + 1)).2.2 + 1 = 0) := by
                omega
              simp only [hc, hnz, if_false]
              push_cast
              ring

/-- The main characterisation: a scan on a session whose cursor is
`s - 1` behaves like `pureScan` on the corpus suffix `logs.drop s`. -/
theorem scanSession_eq_pure (logs : List String) (limit : Nat) (kw : String)
    (sess : Session) (s : Nat) (hs : sess.last_scanned_pos = (s : Int) - 1) :
    scanSession logs limit kw sess =
      some ((pureScan kw limit (logs.drop s) 0).1,
            (pureScan kw limit (logs.drop s) 0).2.1,
            { sess with
              last_scanned_pos := (s : Int) + ((pureScan kw limit (logs.drop s) 0).2.2 : Int) - 1,
              finished :=
                if (logs.length : Int) - 1 ≤
                    (s : Int) + ((pureScan kw limit (logs.drop s) 0).2.2 : Int) - 1 then true
                else sess.finished }) := by
  unfold scanSession
  rw [hs]
  have h1 : (s : Int) - 1 + 1 = ((s : Nat) : Int) := by ring
  rw [h1]
  rw [scanLoop_eq_pure logs kw limit logs.length s ((s : Int) - 1) [] 0 (by omega) (by simp)]
  by_cases hc : (pureScan kw limit (logs.drop s) 0).2.2 = 0
  · simp only [hc, eq_self_iff_true, if_true, List.nil_append, Nat.cast_zero, add_zero]
  · simp [hc]

/-! ### Successive pages of one session -/

/-- Concatenation of the pages produced by `k` successive
`scan_next_page_for_session` calls for one session. -/
def runScans (logs : List String) (limit : Nat) (kw : String) : Nat → Session → List String
  | 0, _ => []
  | Nat.succ k, sess =>
    match scanSession logs limit kw sess with
    | none => []
    | some (page, _, sess') => page ++ runScans logs limit kw k sess'

theorem runScans_sublist (logs : List String) (limit : Nat) (kw : String) :
    ∀ (k : Nat) (sess : Session) (s : Nat), sess.last_scanned_pos = (s : Int) - 1 →
      (runScans logs limit kw k sess).Sublist ((logs.drop s).filter (lineMatches kw)) := by
  intro k
  induction k with
  | zero => intro sess s hs; simp [runScans]
  | succ k ih =>
    intro sess s hs
    simp only [runScans, scanSession_eq_pure logs limit kw sess s hs]
    have hpage := pureScan_page_sublist kw limit (logs.drop s) 0
    have hrest := ih
      { sess with
        last_scanned_pos :=
          (s : Int) + ((pureScan kw limit (logs.drop s) 0).2.2 : Int) - 1,
        finished :=
          if (logs.length : Int) - 1 ≤
              (s : Int) + ((pureScan kw limit (logs.drop s) 0).2.2 : Int) - 1 then true
          else sess.finished }
      (s + (pureScan kw limit (logs.drop s) 0).2.2)
      (by push_cast; ring)
    have happ := List.Sublist.append hpage hrest
    have hsplit : (logs.drop s).filter (lineMatches kw) =
        ((logs.drop s).take (pureScan kw limit (logs.drop s) 0).2.2).filter (lineMatches kw) ++
          (logs.drop (s + (pureScan kw limit (logs.drop s) 0).2.2)).filter (lineMatches kw) := by
      conv_lhs => rw [← List.take_append_drop (pureScan kw limit (logs.drop s) 0).2.2
        (logs.drop s)]
      rw [List.filter_append, List.drop_drop]
    rw [hsplit]
    exact happ

/-- C1 (amended).  Across any number of successive `ScanNextPage` calls
for one session, the concatenation of the returned pages contains each
matching corpus line *at most* once and in corpus order (it is a
subsequence of the matched lines); the lookahead match that triggers
`moreExists` is skipped.  In the spec's scenario the first call returns
the first two matching lines with `moreExists = true`, and the next call
returns the empty page with `moreExists = false`. -/
theorem claim_c1_pages_at_most_once :
    (∀ (logs : List String) (limit : Nat) (kw : String) (k : Nat),
        (runScans logs limit kw k freshSession).Sublist (logs.filter (lineMatches kw))) ∧
    scanSession ["alpha error 1", "beta", "alpha error 2", "alpha error 3"] 2 "alpha"
        freshSession =
      some (["alpha error 1", "alpha error 2"], true,
        { last_scanned_pos := 3, delivered := 0, finished := true }) ∧
    scanSession ["alpha error 1", "beta", "alpha error 2", "alpha error 3"] 2 "alpha"
        { last_scanned_pos := 3, delivered := 0, finished := true } =
      some ([], false, { last_scanned_pos := 3, delivered := 0, finished := true }) := by
  refine ⟨?_, by decide, by decide⟩
  intro logs limit kw k
  have h := runScans_sublist logs limit kw k freshSession 0 (by norm_num [freshSession])
  simpa using h

/-- C1 counterexample.  On the spec's own scenario (corpus of four
lines, page size 2, keyword "alpha") the second `ScanNextPage` call
returns the empty page, not `["alpha error 3"]`: the third matching line
was consumed by the lookahead of the first call and is never returned,
so the concatenation of pages does not contain every matching line. -/
theorem claim_c1_counterexample :
    scanSession ["alpha error 1", "beta", "alpha error 2", "alpha error 3"] 2 "alpha"
        freshSession =
      some (["alpha error 1", "alpha error 2"], true,
        { last_scanned_pos := 3, delivered := 0, finished := true }) ∧
    scanSession ["alpha error 1", "beta", "alpha error 2", "alpha error 3"] 2 "alpha"
        { last_scanned_pos := 3, delivered := 0, finished := true } =
      some ([], false, { last_scanned_pos := 3, delivered := 0, finished := true }) ∧
    ([] : List String) ≠ ["alpha error 3"] :=
  ⟨by decide, by decide, by decide⟩

/-! ### Reachable sessions and their invariants -/

/-- Sessions reachable in the program: created by
`start_or_resume_session` (cursor `-1`) and advanced only by
`scan_next_page_for_session`. -/
inductive ReachableSession (logs : List String) (limit : Nat) (kw : String) : Session → Prop
  | fresh : ReachableSession logs limit kw freshSession
  | step (sess : Session) (page : List String) (more : Bool) (sess' : Session) :
      ReachableSession logs limit kw sess →
      scanSession logs limit kw sess = some (page, more, sess') →
      ReachableSession logs limit kw sess'

theorem reachable_session_invariant {logs : List String} {limit : Nat} {kw : String}
    {sess : Session} (h : ReachableSession logs limit kw sess) :
    -1 ≤ sess.last_scanned_pos ∧ sess.last_scanned_pos ≤ (logs.length : Int) - 1 ∧
    (sess.finished = true → (logs.length : Int) - 1 ≤ sess.last_scanned_pos) := by
  induction h with
  | fresh =>
    refine ⟨by norm_num [freshSession], by simp only [freshSession]; omega, ?_⟩
    intro hf
    simp [freshSession] at hf
  | step sess page more sess' hre hscan ih =>
    obtain ⟨ih1, ih2, ih3⟩ := ih
    set s : Nat := (sess.last_scanned_pos + 1).toNat with hsdef
    have hs : sess.last_scanned_pos = (s : Int) - 1 := by
      rw [hsdef, Int.toNat_of_nonneg (by omega)]
      ring
    rw [scanSession_eq_pure logs limit kw sess s hs] at hscan
    simp only [Option.some.injEq, Prod.mk.injEq] at hscan
    obtain ⟨hpage, hmore, hsess⟩ := hscan
    have hcle := pureScan_consumed_le kw limit (logs.drop s) 0
    rw [List.length_drop] at hcle
    have hsle : s ≤ logs.length := by omega
    subst hsess
    refine ⟨by simp only []; omega, by simp only []; omega, ?_⟩
    intro hf
    simp only [] at hf ⊢
    by_cases hcond : (logs.length : Int) - 1 ≤
        (s : Int) + ((pureScan kw limit (logs.drop s) 0).2.2 : Int) - 1
    · exact hcond
    · rw [if_neg hcond] at hf
      have := ih3 hf
      omega

/-- C9.  For a reachable session, `lastScannedPosition` never decreases
across `ScanNextPage` calls, `finished` stays `true` once set, and a
scan of a finished session returns the empty page with
`moreExists = false`. -/
theorem claim_c9_session_invariants {logs : List String} {limit : Nat} {kw : String}
    {sess : Session} {page : List String} {more : Bool} {sess' : Session}
    (hre : ReachableSession logs limit kw sess)
    (hscan : scanSession logs limit kw sess = some (page, more, sess')) :
    sess.last_scanned_pos ≤ sess'.last_scanned_pos ∧
    (sess.finished = true → sess'.finished = true) ∧
    (sess.finished = true → page = [] ∧ more = false) := by
  obtain ⟨ih1, ih2, ih3⟩ := reachable_session_invariant hre
  set s : Nat := (sess.last_scanned_pos + 1).toNat with hsdef
  have hs : sess.last_scanned_pos = (s : Int) - 1 := by
    rw [hsdef, Int.toNat_of_nonneg (by omega)]
    ring
  rw [scanSession_eq_pure logs limit kw sess s hs] at hscan
  simp only [Option.some.injEq, Prod.mk.injEq] at hscan
  obtain ⟨hpage, hmore, hsess⟩ := hscan
  refine ⟨?_, ?_, ?_⟩
  · rw [← hsess]
    simp only []
    omega
  · intro hf
    rw [← hsess]
    simp only []
    split
    · rfl
    · exact hf
  · intro hf
    have hge := ih3 hf
    have hsge : logs.length ≤ s := by omega
    have hdropnil : logs.drop s = [] := List.drop_eq_nil_of_le hsge
    rw [hdropnil] at hpage hmore
    simp only [pureScan] at hpage hmore
    exact ⟨hpage.symm, hmore.symm⟩

/-- C9 witness at a concrete finished reachable session. -/
theorem claim_c9_witness :
    (Session.mk 0 0 true).last_scanned_pos ≤ (Session.mk 0 0 true).last_scanned_pos ∧
    ((Session.mk 0 0 true).finished = true → (Session.mk 0 0 true).finished = true) ∧
    ((Session.mk 0 0 true).finished = true → ([] : List String) = [] ∧ false = false) :=
  @claim_c9_session_invariants ["a"] 1 "a" (Session.mk 0 0 true) [] false (Session.mk 0 0 true)
    (@ReachableSession.step ["a"] 1 "a" freshSession ["a"] false (Session.mk 0 0 true)
      ReachableSession.fresh (by decide))
    (by decide)

/-- C10.  For a reachable session the cursor stays within `[-1, n-1]`,
so every corpus index visited by the scan loop is in bounds and the scan
never raises an indexing error. -/
theorem claim_c10_cursor_in_bounds {logs : List String} {limit : Nat} {kw : String}
    {sess : Session} (hre : ReachableSession logs limit kw sess) :
    -1 ≤ sess.last_scanned_pos ∧ sess.last_scanned_pos ≤ (logs.length : Int) - 1 ∧
    (∀ i ∈ intRange (sess.last_scanned_pos + 1) (logs.length : Int),
        0 ≤ i ∧ i < (logs.length : Int)) ∧
    ∃ r, scanSession logs limit kw sess = some r := by
  obtain ⟨h1, h2, _⟩ := reachable_session_invariant hre
  refine ⟨h1, h2, ?_, ?_⟩
  · intro i hi
    have := mem_intRange hi
    omega
  · set s : Nat := (sess.last_scanned_pos + 1).toNat with hsdef
    have hs : sess.last_scanned_pos = (s : Int) - 1 := by
      rw [hsdef, Int.toNat_of_nonneg (by omega)]
      ring
    exact ⟨_, scanSession_eq_pure logs limit kw sess s hs⟩

/-! ### The database: tables `keys` and `users` -/

/-- One row of the `keys` table: `(key, expires, redeemed_by)`. -/
abbrev KeyRow := String × Int × Option Nat

/-- The two PostgreSQL tables created at startup. -/
structure Db where
  keys : List KeyRow
  users : List (Nat × Int)
deriving DecidableEq, Repr

/-- Query `get_user_expiry`: `SELECT expires FROM users WHERE user_id=%s`. -/
def get_user_expiry (users : List (Nat × Int)) (uid : Nat) : Option Int :=
  (users.find? (fun r => r.1 == uid)).map (fun r => r.2)

/-- Statement `INSERT INTO users ... ON CONFLICT (user_id) DO UPDATE SET expires=%s`. -/
def upsertUser (users : List (Nat × Int)) (uid : Nat) (e : Int) : List (Nat × Int) :=
  if users.any (fun r => r.1 == uid) then
    users.map (fun r => if r.1 == uid then (uid, e) else r)
  else users ++ [(uid, e)]

/-- Statement `DELETE FROM users WHERE user_id=%s`. -/
def deleteUser (users : List (Nat × Int)) (uid : Nat) : List (Nat × Int) :=
  users.filter (fun r => r.1 != uid)

/-- Query `SELECT expires FROM keys WHERE key=%s AND redeemed_by IS NULL`. -/
def selectUnredeemed (keys : List KeyRow) (k : String) : Option Int :=
  (keys.find? (fun r => r.1 == k && r.2.2.isNone)).map (fun r => r.2.1)

/-- Statement `UPDATE keys SET redeemed_by=%s WHERE key=%s`. -/
def markRedeemed (keys : List KeyRow) (k : String) (uid : Nat) : List KeyRow :=
  keys.map (fun r => if r.1 == k then (r.1, r.2.1, some uid) else r)

/-- Function `has_active_key` (lines 80–89 of `src/app.py`): look the user up; if
present and unexpired return true; if present and expired delete the row
and return false.  `now` is passed explicitly; the updated `users` table
is returned alongside the answer. -/
def has_active_key (users : List (Nat × Int)) (now : Int) (uid : Nat) :
    Bool × List (Nat × Int) :=
  match get_user_expiry users uid with
  | none => (false, users)
  | some exp =>
    if now ≤ exp then (true, users)
    else (false, deleteUser users uid)

/-- Function `process_redeem_for_user` (lines 114–134 of `src/app.py`): check the
key is unredeemed; on success upsert the user's entitlement and claim
the key, both inside the one transaction committed by the single
`conn.commit()` — so the state transition applies both mutations or
neither.  Returns `(success, message, expires)` and the updated
database. -/
def process_redeem_for_user (db : Db) (uid : Nat) (key : String) :
    (Bool × String × Option Int) × Db :=
  match selectUnredeemed db.keys key with
  | none => ((false, "❌ Invalid or already redeemed key", none), db)
  | some expires =>
    ((true, "✅ Access granted until " ++ toString expires, some expires),
     { keys := markRedeemed db.keys key uid,
       users := upsertUser db.users uid expires })

theorem find_map_update {uid : Nat} {e : Int} :
    ∀ {users : List (Nat × Int)}, users.any (fun r => r.1 == uid) = true →
      (users.map (fun r => if r.1 == uid then (uid, e) else r)).find?
          (fun r => r.1 == uid) = some (uid, e) := by
  intro users
  induction users with
  | nil => intro h; simp at h
  | cons r rest ih =>
    intro h
    cases hr : (r.1 == uid)
    · have h' : rest.any (fun r => r.1 == uid) = true := by
        simp only [List.any_cons, hr, Bool.false_or] at h
        exact h
      simp only [List.map_cons, hr, Bool.false_eq_true, if_false, List.find?_cons, hr]
      exact ih h'
    · have heq : r.1 = uid := by simpa using hr
      simp [List.find?_cons, heq]

theorem find_append_single {uid : Nat} {e : Int} :
    ∀ {users : List (Nat × Int)}, users.find? (fun r => r.1 == uid) = none →
      (users ++ [(uid, e)]).find? (fun r => r.1 == uid) = some (uid, e) := by
  intro users
  induction users with
  | nil => intro _; simp [List.find?_cons]
  | cons r rest ih =>
    intro h
    cases hr : (r.1 == uid)
    · have h' : rest.find? (fun r => r.1 == uid) = none := by
        simpa [List.find?_cons, hr] using h
      simpa [List.find?_cons, hr] using ih h'
    · exfalso
      have hsome : (r :: rest).find? (fun r => r.1 == uid) = some r := by
        simp [List.find?_cons, hr]
      rw [h] at hsome
      cases hsome

theorem get_upsert_self (users : List (Nat × Int)) (uid : Nat) (e : Int) :
    get_user_expiry (upsertUser users uid e) uid = some e := by
  unfold upsertUser get_user_expiry
  cases hany : users.any (fun r => r.1 == uid)
  · simp only [Bool.false_eq_true, if_false]
    have hnone : users.find? (fun r => r.1 == uid) = none := by
      refine List.find?_eq_none.mpr (fun x hx hpred => ?_)
      have hx2 : users.any (fun r => r.1 == uid) = true :=
        List.any_eq_true.mpr ⟨x, hx, hpred⟩
      rw [hany] at hx2
      cases hx2
    rw [find_append_single hnone]
    rfl
  · simp only [eq_self_iff_true, if_true]
    rw [find_map_update hany]
    rfl

theorem selectUnredeemed_eq_none_iff (keys : List KeyRow) (k : String) :
    selectUnredeemed keys k = none ↔ ∀ row ∈ keys, ¬(row.1 = k ∧ row.2.2 = none) := by
  unfold selectUnredeemed
  rw [Option.map_eq_none', List.find?_eq_none]
  constructor <;> intro h row hrow
  · intro hc
    have := h row hrow
    simp only [Bool.and_eq_true, beq_iff_eq, Option.isNone_iff_eq_none] at this
    exact this ⟨hc.1, hc.2⟩
  · have := h row hrow
    simp only [Bool.and_eq_true, beq_iff_eq, Option.isNone_iff_eq_none]
    exact fun hc => this ⟨hc.1, hc.2⟩

theorem selectUnredeemed_eq_some_mem {keys : List KeyRow} {k : String} {e : Int}
    (h : selectUnredeemed keys k = some e) : (k, e, none) ∈ keys := by
  unfold selectUnredeemed at h
  cases hfind : keys.find? (fun r => r.1 == k && r.2.2.isNone) with
  | none => rw [hfind] at h; cases h
  | some row =>
    rw [hfind] at h
    simp only [Option.map_some', Option.some.injEq] at h
    have hmem := List.mem_of_find?_eq_some hfind
    have hpred := List.find?_some hfind
    simp only [Bool.and_eq_true, beq_iff_eq, Option.isNone_iff_eq_none] at hpred
    obtain ⟨a, b, c⟩ := row
    simp only at hpred h
    rw [← hpred.1, ← hpred.2, ← h]
    exact hmem

theorem markRedeemed_mem {keys : List KeyRow} {k : String} {e : Int}
    (h : (k, e, none) ∈ keys) (uid : Nat) :
    (k, e, some uid) ∈ markRedeemed keys k uid := by
  unfold markRedeemed
  have hm := List.mem_map_of_mem
    (fun r : KeyRow => if r.1 == k then (r.1, r.2.1, some uid) else r) h
  simpa using hm

/-- C3.  `Redeem(userId, code)` fails exactly when no key row has that
code with a null `redeemed_by`; a failed redemption leaves the database
untouched; a successful one claims the key for the user and upserts the
user's entitlement to the key's expiry; and the resulting state is
always either the unchanged database or the database with *both*
mutations applied (they are committed as one transaction). -/
theorem claim_c3_redeem_atomic (db : Db) (uid : Nat) (key : String) :
    ((process_redeem_for_user db uid key).1.1 = false ↔
      ∀ row ∈ db.keys, ¬(row.1 = key ∧ row.2.2 = none)) ∧
    ((process_redeem_for_user db uid key).1.1 = false →
      (process_redeem_for_user db uid key).2 = db) ∧
    (∀ e, selectUnredeemed db.keys key = some e →
      (process_redeem_for_user db uid key).1.1 = true ∧
      (key, e, none) ∈ db.keys ∧
      get_user_expiry ((process_redeem_for_user db uid key).2).users uid = some e ∧
      (key, e, some uid) ∈ ((process_redeem_for_user db uid key).2).keys) ∧
    ((process_redeem_for_user db uid key).2 = db ∨
      ∃ e, (process_redeem_for_user db uid key).2 =
        { keys := markRedeemed db.keys key uid, users := upsertUser db.users uid e }) := by
  cases hsel : selectUnredeemed db.keys key with
  | none =>
    unfold process_redeem_for_user
    rw [hsel]
    refine ⟨?_, fun _ => rfl, ?_, Or.inl rfl⟩
    · simpa using (selectUnredeemed_eq_none_iff db.keys key).mp hsel
    · intro e he
      cases he
  | some e0 =>
    unfold process_redeem_for_user
    rw [hsel]
    refine ⟨?_, ?_, ?_, Or.inr ⟨e0, rfl⟩⟩
    · refine iff_of_false (by simp) ?_
      intro hall
      have hnone := (selectUnredeemed_eq_none_iff db.keys key).mpr hall
      rw [hsel] at hnone
      cases hnone
    · intro h
      simp at h
    · intro e he
      cases he
      have hmem := selectUnredeemed_eq_some_mem hsel
      exact ⟨rfl, hmem, get_upsert_self db.users uid e0, markRedeemed_mem hmem uid⟩

/-- C3 witness: a concrete successful redemption. -/
theorem claim_c3_witness :
    (process_redeem_for_user (Db.mk [("K", 9, none)] []) 7 "K").1.1 = true ∧
    get_user_expiry ((process_redeem_for_user (Db.mk [("K", 9, none)] []) 7 "K").2).users 7 =
      some 9 ∧
    ("K", 9, some 7) ∈ ((process_redeem_for_user (Db.mk [("K", 9, none)] []) 7 "K").2).keys := by
  have h := (claim_c3_redeem_atomic (Db.mk [("K", 9, none)] []) 7 "K").2.2.1 9 (by decide)
  exact ⟨h.1, h.2.2.1, h.2.2.2⟩

/-- C7.  A redemption by a user who already holds an entitlement
overwrites the stored expiry with the newly redeemed key's expiry —
whatever the old value was, including a later one. -/
theorem claim_c7_overwrite (db : Db) (uid : Nat) (key : String) (oldExp newExp : Int)
    (_hOld : get_user_expiry db.users uid = some oldExp)
    (hKey : selectUnredeemed db.keys key = some newExp) :
    get_user_expiry ((process_redeem_for_user db uid key).2).users uid = some newExp := by
  unfold process_redeem_for_user
  rw [hKey]
  exact get_upsert_self db.users uid newExp

/-- C7 witness: the old expiry (100) was later than the new one (5) and
is still overwritten. -/
theorem claim_c7_witness :
    (5 : Int) < 100 ∧
    get_user_expiry
        ((process_redeem_for_user (Db.mk [("K", 5, none)] [(7, 100)]) 7 "K").2).users 7 =
      some 5 :=
  ⟨by decide, claim_c7_overwrite (Db.mk [("K", 5, none)] [(7, 100)]) 7 "K" 100 5
    (by decide) (by decide)⟩

/-- C8.  `HasActiveEntitlement` is true exactly when a record exists and
`now ≤ expiresAt`; with no record it returns false and changes nothing;
with an expired record it returns false and deletes the record. -/
theorem claim_c8_has_active_entitlement (users : List (Nat × Int)) (now : Int) (uid : Nat) :
    ((has_active_key users now uid).1 = true ↔
      ∃ e, get_user_expiry users uid = some e ∧ now ≤ e) ∧
    (get_user_expiry users uid = none → has_active_key users now uid = (false, users)) ∧
    (∀ e, get_user_expiry users uid = some e → e < now →
      has_active_key users now uid = (false, deleteUser users uid)) := by
  refine ⟨?_, ?_, ?_⟩
  · unfold has_active_key
    cases hget : get_user_expiry users uid with
    | none => simp
    | some exp =>
      by_cases hle : now ≤ exp
      · simp [hle]
      · simp only [hle, if_false, Bool.false_eq_true, false_iff]
        rintro ⟨e, he, hnow⟩
        cases he
        exact hle hnow
  · intro hget
    unfold has_active_key
    rw [hget]
  · intro e hget hlt
    unfold has_active_key
    rw [hget]
    have hn : ¬ now ≤ e := by omega
    simp [hn]

/-- C8 witness: an expired record is deleted; an unexpired one answers
true. -/
theorem claim_c8_witness :
    has_active_key [(1, 5)] 10 1 = (false, []) ∧
    (has_active_key [(1, 20)] 10 1).1 = true := by
  constructor
  · have h := (claim_c8_has_active_entitlement [(1, 5)] 10 1).2.2 5 (by decide) (by decide)
    simpa [deleteUser] using h
  · exact ((claim_c8_has_active_entitlement [(1, 20)] 10 1).1).mpr ⟨20, by decide, by decide⟩

/-! ### `/createkey`: batch key generation under one transaction -/

/-- The `keys` table as seen inside the open transaction: rows already
committed by earlier transactions, plus rows inserted but not yet
committed. -/
structure TxKeys where
  committed : List KeyRow
  pending : List KeyRow
deriving DecidableEq, Repr

/-- One `INSERT INTO keys (key, expires, redeemed_by) VALUES (%s,%s,NULL)`
from the loop of `create_key_cmd`.  A duplicate code violates the
primary key (the row is visible whether committed or pending in this
transaction): psycopg2 raises `IntegrityError` and the handler calls
`conn.rollback()`, which discards *every* uncommitted insert of the
transaction, not just the failing one.  Returns the transaction state
and whether the insert succeeded. -/
def insertKey (tx : TxKeys) (k : String) (e : Int) : TxKeys × Bool :=
  if (tx.committed ++ tx.pending).any (fun r => r.1 == k) then
    ({ tx with pending := [] }, false)
  else
    ({ tx with pending := tx.pending ++ [(k, e, none)] }, true)

/-- The `for _ in range(count)` loop of `create_key_cmd` (lines
163–175 of `src/app.py`): `candidates` are the randomly generated
codes, `acc` the `keys` list that is reported back to the admin. -/
def createKeysLoop (expires : Int) :
    List String → TxKeys → List String → List String × TxKeys
  | [], tx, acc => (acc, tx)
  | k :: rest, tx, acc =>
    let p := insertKey tx k expires
    createKeysLoop expires rest p.1 (if p.2 then acc ++ [k] else acc)

/-- Function `create_key_cmd` (lines 149–179): run the insert loop over the
generated candidate codes, then `conn.commit()`.  Returns the codes
reported to the admin and the committed `keys` table.  (The source
recomputes `datetime.now() + timedelta(days=days)` per iteration; here
the expiry is one timestamp parameter.) -/
def create_key_cmd (candidates : List String) (expires : Int) (keysDb : List KeyRow) :
    List String × List KeyRow :=
  let p := createKeysLoop expires candidates { committed := keysDb, pending := [] } []
  (p.1, p.2.committed ++ p.2.pending)

/-- C5 (code bug).  With `KEY-100001` already in the table and
candidates `KEY-100000, KEY-100001, KEY-100002`, the collision on the
second candidate rolls back the whole open transaction: `KEY-100000` is
reported to the admin as generated but is *not* stored, contradicting
the claim that a collision discards only the colliding candidate and
that the returned list is authoritative. -/
theorem claim_c5_rollback_loses_batch :
    create_key_cmd ["KEY-100000", "KEY-100001", "KEY-100002"] 7 [("KEY-100001", 3, none)] =
      (["KEY-100000", "KEY-100002"],
       [("KEY-100001", 3, none), ("KEY-100002", 7, none)]) ∧
    "KEY-100000" ∈
      (create_key_cmd ["KEY-100000", "KEY-100001", "KEY-100002"] 7
        [("KEY-100001", 3, none)]).1 ∧
    ((create_key_cmd ["KEY-100000", "KEY-100001", "KEY-100002"] 7
        [("KEY-100001", 3, none)]).2.all (fun row => row.1 != "KEY-100000")) = true :=
  ⟨by decide, by decide, by decide⟩

/-! ### Two concurrent redemptions of the same code -/

/-- Program counter of one thread running `process_redeem_for_user`: it
has not yet executed the SELECT, or it holds the fetched row's expiry,
or it is done with the call's result `(success, expires)`. -/
inductive ThreadPc where
  | ready : ThreadPc
  | haveRow : Int → ThreadPc
  | finished : Bool → Option Int → ThreadPc
deriving DecidableEq, Repr

/-- One atomic step of a thread running `process_redeem_for_user uid key`:
first the `SELECT ... WHERE key=%s AND redeemed_by IS NULL`, then the
two writes plus commit.  The writes of one call are atomic, but nothing
serialises one call's SELECT against the other call's writes, and the
`UPDATE keys SET redeemed_by=%s WHERE key=%s` has no
`AND redeemed_by IS NULL` guard. -/
def stepRedeem (uid : Nat) (key : String) (db : Db) : ThreadPc → ThreadPc × Db
  | .ready =>
    match selectUnredeemed db.keys key with
    | none => (.finished false none, db)
    | some e => (.haveRow e, db)
  | .haveRow e =>
    (.finished true (some e),
     { keys := markRedeemed db.keys key uid, users := upsertUser db.users uid e })
  | .finished ok e => (.finished ok e, db)

/-- Interleaved execution of two redemption calls for the same `key`:
thread A redeems for `uidA`, thread B for `uidB`. -/
structure RaceState where
  db : Db
  pcA : ThreadPc
  pcB : ThreadPc
deriving DecidableEq, Repr

/-- Run one scheduled step: `true` runs a step of thread A, `false` of
thread B. -/
def raceStep (uidA uidB : Nat) (key : String) (s : RaceState) (choice : Bool) : RaceState :=
  if choice then
    let p := stepRedeem uidA key s.db s.pcA
    { s with pcA := p.1, db := p.2 }
  else
    let p := stepRedeem uidB key s.db s.pcB
    { s with pcB := p.1, db := p.2 }

def runRace (uidA uidB : Nat) (key : String) : List Bool → RaceState → RaceState
  | [], s => s
  | c :: cs, s => runRace uidA uidB key cs (raceStep uidA uidB key s c)

/-- C4 (code bug).  Under the interleaving SELECT-A, SELECT-B, WRITE-A,
WRITE-B on one unredeemed key, *both* redemptions report success and
both users are granted the entitlement; the key row ends up redeemed by
user 2 after first being marked redeemed by user 1. -/
theorem claim_c4_both_redemptions_succeed :
    runRace 1 2 "KEY-111111" [true, false, true, false]
        (RaceState.mk (Db.mk [("KEY-111111", 99, none)] [])
          ThreadPc.ready ThreadPc.ready) =
      RaceState.mk
        (Db.mk [("KEY-111111", 99, some 2)] [(1, 99), (2, 99)])
        (ThreadPc.finished true (some 99)) (ThreadPc.finished true (some 99)) := by
  decide

/-! ### Session storage, cooldown, and the search/more flows -/

/-- The in-memory `user_sessions` dict, flattened to `(user_id, keyword)`
keys (the source nests `user_id -> keyword -> session`; per-user
isolation is preserved by the compound key). -/
abbrev Sessions := List ((Nat × String) × Session)

def getSession (ss : Sessions) (uid : Nat) (kw : String) : Option Session :=
  (ss.find? (fun r => r.1.1 == uid && r.1.2 == kw)).map (fun r => r.2)

def setSession (ss : Sessions) (uid : Nat) (kw : String) (sess : Session) : Sessions :=
  if ss.any (fun r => r.1.1 == uid && r.1.2 == kw) then
    ss.map (fun r => if r.1.1 == uid && r.1.2 == kw then ((uid, kw), sess) else r)
  else ss ++ [((uid, kw), sess)]

/-- Function `start_or_resume_session` (lines 247–254 of `src/app.py`): return
the existing session for `(uid, kw)` or create the fresh one. -/
def start_or_resume_session (ss : Sessions) (uid : Nat) (kw : String) : Session × Sessions :=
  match getSession ss uid kw with
  | some sess => (sess, ss)
  | none => (freshSession, setSession ss uid kw freshSession)

/-- Function `scan_next_page_for_session` acting on the session store exactly as
the source does: ensure the session exists, scan, store the advanced
session. -/
def scan_next_page_for_session (ss : Sessions) (logs : List String) (limit : Nat)
    (uid : Nat) (kw : String) : Option (List String × Bool × Sessions) :=
  let p := start_or_resume_session ss uid kw
  match scanSession logs limit kw p.1 with
  | none => none
  | some (results, more, sess') => some (results, more, setSession p.2 uid kw sess')

/-- Function `is_on_cooldown` (lines 92–103): `(on_cooldown, remaining)`; the
admin always passes.  The cooldown window is `SEARCH_COOLDOWN_MINUTES`
and timestamps are in minutes. -/
def is_on_cooldown (last_search : List (Nat × Int)) (now : Int) (uid : Nat) : Bool × Int :=
  if uid == ADMIN_ID then (false, 0)
  else
    match (last_search.find? (fun r => r.1 == uid)).map (fun r => r.2) with
    | none => (false, 0)
    | some last =>
      if now < last + SEARCH_COOLDOWN_MINUTES then
        (true, last + SEARCH_COOLDOWN_MINUTES - now)
      else (false, 0)

/-- Function `set_search_timestamp` (lines 105–106): `last_search[user_id] = now`
(a dict upsert). -/
def set_search_timestamp (last_search : List (Nat × Int)) (now : Int) (uid : Nat) :
    List (Nat × Int) :=
  upsertUser last_search uid now

/-- The process state touched by the search flows. -/
structure BotState where
  db : Db
  sessions : Sessions
  last_search : List (Nat × Int)
  logs : List String
deriving DecidableEq, Repr

/-- The observable outcome of a search or more request (which reply the
handler sends). -/
inductive Outcome where
  | needKey : Outcome
  | cooldown : Int → Outcome
  | emptyKeyword : Outcome
  | noResults : Outcome
  | sent : List String → Bool → Outcome
  | scanError : Outcome
deriving DecidableEq, Repr

/-- Python `str.lower()`, character-wise. -/
def pyLower (s : String) : String :=
  String.mk (s.toList.map Char.toLower)

/-- Python `str.strip()`. -/
def pyStrip (s : String) : String :=
  String.mk
    (((s.toList.dropWhile Char.isWhitespace).reverse.dropWhile Char.isWhitespace).reverse)

/-- Handler `do_search` (lines 376–433): entitlement gate, cooldown gate, empty
keyword check, ensure the session, mark the cooldown timestamp, then
scan; an empty page answers "no results". -/
def do_search (st : BotState) (now : Int) (uid : Nat) (text : String) : Outcome × BotState :=
  let hak := has_active_key st.db.users now uid
  let st1 : BotState := { st with db := { st.db with users := hak.2 } }
  if hak.1 = false then (.needKey, st1)
  else
    let cd := is_on_cooldown st1.last_search now uid
    if cd.1 = true then (.cooldown cd.2, st1)
    else
      let kw := pyLower (pyStrip text)
      if kw = "" then (.emptyKeyword, st1)
      else
        let st2 : BotState :=
          { st1 with sessions := (start_or_resume_session st1.sessions uid kw).2 }
        let st3 : BotState :=
          { st2 with last_search := set_search_timestamp st2.last_search now uid }
        match scan_next_page_for_session st3.sessions st3.logs SEARCH_LINE_LIMIT uid kw with
        | none => (.scanError, st3)
        | some (results, more, ss') =>
          let st4 : BotState := { st3 with sessions := ss' }
          if results = [] then (.noResults, st4) else (.sent results more, st4)

/-- Handler `more_cb` (lines 320–366): entitlement gate, cooldown gate, scan
(creating the session when absent), and only after a non-empty page is
produced mark the cooldown timestamp. -/
def more_cb (st : BotState) (now : Int) (uid : Nat) (kw : String) : Outcome × BotState :=
  let hak := has_active_key st.db.users now uid
  let st1 : BotState := { st with db := { st.db with users := hak.2 } }
  if hak.1 = false then (.needKey, st1)
  else
    let cd := is_on_cooldown st1.last_search now uid
    if cd.1 = true then (.cooldown cd.2, st1)
    else
      match scan_next_page_for_session st1.sessions st1.logs SEARCH_LINE_LIMIT uid kw with
      | none => (.scanError, st1)
      | some (results, more, ss') =>
        let st2 : BotState := { st1 with sessions := ss' }
        if results = [] then (.noResults, st2)
        else (.sent results more,
          { st2 with last_search := set_search_timestamp st2.last_search now uid })

/-- Handlers `refresh_logs_cmd` / `refresh_logs_cb` (lines 196–205, 596–604):
reload the corpus and clear every session. -/
def refresh_logs (st : BotState) (newLogs : List String) : BotState :=
  { st with logs := newLogs, sessions := [] }

theorem has_active_key_true_frame {users : List (Nat × Int)} {now : Int} {uid : Nat}
    (h : (has_active_key users now uid).1 = true) :
    (has_active_key users now uid).2 = users := by
  unfold has_active_key at h ⊢
  cases hget : get_user_expiry users uid with
  | none => rw [hget] at h
  | some exp =>
    rw [hget] at h
    by_cases hle : now ≤ exp
    · simp [hle]
    · simp [hle] at h

theorem sess_find_map_update {uid : Nat} {kw : String} {sess : Session} :
    ∀ {ss : Sessions}, ss.any (fun r => r.1.1 == uid && r.1.2 == kw) = true →
      (ss.map (fun r => if r.1.1 == uid && r.1.2 == kw then ((uid, kw), sess) else r)).find?
          (fun r => r.1.1 == uid && r.1.2 == kw) = some ((uid, kw), sess) := by
  intro ss
  induction ss with
  | nil => intro h; simp at h
  | cons r rest ih =>
    intro h
    cases hr : (r.1.1 == uid && r.1.2 == kw)
    · have h' : rest.any (fun r => r.1.1 == uid && r.1.2 == kw) = true := by
        simp only [List.any_cons, hr, Bool.false_or] at h
        exact h
      simp only [List.map_cons, hr, Bool.false_eq_true, if_false, List.find?_cons, hr]
      exact ih h'
    · have hand : r.1.1 = uid ∧ r.1.2 = kw := by simpa [Bool.and_eq_true] using hr
      simp [List.find?_cons, hand.1, hand.2]

theorem sess_find_append {uid : Nat} {kw : String} {sess : Session} :
    ∀ {ss : Sessions}, ss.find? (fun r => r.1.1 == uid && r.1.2 == kw) = none →
      (ss ++ [((uid, kw), sess)]).find? (fun r => r.1.1 == uid && r.1.2 == kw) =
        some ((uid, kw), sess) := by
  intro ss
  induction ss with
  | nil => intro _; simp [List.find?_cons]
  | cons r rest ih =>
    intro h
    cases hr : (r.1.1 == uid && r.1.2 == kw)
    · have h' : rest.find? (fun r => r.1.1 == uid && r.1.2 == kw) = none := by
        simpa [List.find?_cons, hr] using h
      simpa [List.find?_cons, hr] using ih h'
    · exfalso
      have hsome : (r :: rest).find? (fun r => r.1.1 == uid && r.1.2 == kw) = some r := by
        simp [List.find?_cons, hr]
      rw [h] at hsome
      cases hsome

theorem getSession_set_self (ss : Sessions) (uid : Nat) (kw : String) (sess : Session) :
    getSession (setSession ss uid kw sess) uid kw = some sess := by
  unfold setSession getSession
  cases hany : ss.any (fun r => r.1.1 == uid && r.1.2 == kw)
  · simp only [Bool.false_eq_true, if_false]
    have hnone : ss.find? (fun r => r.1.1 == uid && r.1.2 == kw) = none := by
      refine List.find?_eq_none.mpr (fun x hx hpred => ?_)
      have hx2 : ss.any (fun r => r.1.1 == uid && r.1.2 == kw) = true :=
        List.any_eq_true.mpr ⟨x, hx, hpred⟩
      rw [hany] at hx2
      cases hx2
    rw [sess_find_append hnone]
    rfl
  · simp only [eq_self_iff_true, if_true]
    rw [sess_find_map_update hany]
    rfl

/-- C2 (amended).  `more_cb` never fails with an "unknown session"
error — no such outcome exists.  When no session exists for
`(uid, keyword)` (in particular right after a corpus reload cleared all
sessions), a `More` call creates a fresh session and scans the *current*
corpus from the beginning: it answers "no more results" when that fresh
scan yields an empty page and otherwise delivers the fresh first page,
storing the advanced session. -/
theorem claim_c2_more_without_session_scans (st : BotState) (now : Int) (uid : Nat)
    (kw : String)
    (hE : (has_active_key st.db.users now uid).1 = true)
    (hC : (is_on_cooldown st.last_search now uid).1 = false)
    (hS : getSession st.sessions uid kw = none) :
    ∃ page more sess',
      scanSession st.logs SEARCH_LINE_LIMIT kw freshSession = some (page, more, sess') ∧
      (more_cb st now uid kw).1 =
        (if page = [] then Outcome.noResults else Outcome.sent page more) ∧
      getSession (more_cb st now uid kw).2.sessions uid kw = some sess' := by
  obtain ⟨⟨page, more, sess'⟩, hr⟩ :
      ∃ r, scanSession st.logs SEARCH_LINE_LIMIT kw freshSession = some r :=
    ⟨_, scanSession_eq_pure st.logs SEARCH_LINE_LIMIT kw freshSession 0
      (by norm_num [freshSession])⟩
  have hframe := has_active_key_true_frame hE
  have hE' : ¬ ((has_active_key st.db.users now uid).1 = false) := by simp [hE]
  have hC' : ¬ ((is_on_cooldown st.last_search now uid).1 = true) := by simp [hC]
  refine ⟨page, more, sess', hr, ?_, ?_⟩
  · by_cases hp : page = [] <;>
      simp [more_cb, hframe, hE', hC', scan_next_page_for_session,
        start_or_resume_session, hS, hr, hp]
  · by_cases hp : page = [] <;>
      simp [more_cb, hframe, hE', hC', scan_next_page_for_session,
        start_or_resume_session, hS, hr, hp, getSession_set_self]

/-- C2 witness: an entitled user with no session issues `More` and gets
the first page of the current corpus. -/
theorem claim_c2_witness :
    ∃ page more sess',
      scanSession ["alpha 1"] SEARCH_LINE_LIMIT ("alpha") freshSession =
        some (page, more, sess') ∧
      (more_cb (BotState.mk (Db.mk [] [(1, 100)]) [] [] ["alpha 1"]) 50 1 "alpha").1 =
        (if page = [] then Outcome.noResults else Outcome.sent page more) ∧
      getSession (more_cb (BotState.mk (Db.mk [] [(1, 100)]) [] [] ["alpha 1"]) 50 1
          "alpha").2.sessions 1 "alpha" = some sess' :=
  claim_c2_more_without_session_scans (BotState.mk (Db.mk [] [(1, 100)]) [] [] ["alpha 1"])
    50 1 "alpha" (by decide) (by decide) (by decide)

/-- C2 counterexample.  After a corpus reload clears every session, a
`More` referencing the stale `(user, keyword)` pair does not fail with
`UnknownSession`: it scans the *new* corpus from the beginning and
delivers a page from it. -/
theorem claim_c2_counterexample :
    (refresh_logs
        (BotState.mk (Db.mk [] [(1, 100)]) [((1, "alpha"), Session.mk 0 0 true)] [] ["x"])
        ["alpha 1"]).sessions = [] ∧
    (more_cb
        (refresh_logs
          (BotState.mk (Db.mk [] [(1, 100)]) [((1, "alpha"), Session.mk 0 0 true)] [] ["x"])
          ["alpha 1"])
        50 1 "alpha").1 = Outcome.sent ["alpha 1"] false :=
  ⟨by decide, by decide⟩

/-- Outcomes rejected before any session/corpus work happens. -/
def isRejected : Outcome → Bool
  | .needKey => true
  | .cooldown _ => true
  | .emptyKeyword => true
  | _ => false

/-- Outcome carrying a delivered page. -/
def isSent : Outcome → Bool
  | .sent _ _ => true
  | _ => false

/-- C6 (amended).  `do_search` records the cooldown timestamp exactly
once, immediately before scanning, whenever the request passes the
entitlement, cooldown and non-empty-keyword gates — even when the scan
then yields no results; rejected attempts leave it unchanged.
`more_cb`, by contrast, records the timestamp only *after* a scan that
produced a non-empty page; a rejected attempt — and also an accepted
`More` whose scan comes back empty — leaves it unchanged. -/
theorem claim_c6_timestamp_discipline (st : BotState) (now : Int) (uid : Nat)
    (text kw : String) :
    ((do_search st now uid text).2.last_search =
      if isRejected (do_search st now uid text).1 then st.last_search
      else set_search_timestamp st.last_search now uid) ∧
    ((more_cb st now uid kw).2.last_search =
      if isSent (more_cb st now uid kw).1 then set_search_timestamp st.last_search now uid
      else st.last_search) := by
  constructor
  · by_cases h1 : (has_active_key st.db.users now uid).1 = false
    · simp [do_search, h1, isRejected]
    · by_cases h2 : (is_on_cooldown st.last_search now uid).1 = true
      · simp [do_search, h1, h2, isRejected]
      · by_cases h3 : pyLower (pyStrip text) = ""
        · simp [do_search, h1, h2, h3, isRejected]
        · cases h4 : scan_next_page_for_session
              ((start_or_resume_session st.sessions uid (pyLower (pyStrip text))).2)
              st.logs SEARCH_LINE_LIMIT uid (pyLower (pyStrip text)) with
          | none => simp [do_search, h1, h2, h3, h4, isRejected]
          | some r =>
            obtain ⟨results, more, ss'⟩ := r
            by_cases h5 : results = []
            · simp [do_search, h1, h2, h3, h4, h5, isRejected]
            · simp [do_search, h1, h2, h3, h4, h5, isRejected]
  · by_cases h1 : (has_active_key st.db.users now uid).1 = false
    · simp [more_cb, h1, isSent]
    · by_cases h2 : (is_on_cooldown st.last_search now uid).1 = true
      · simp [more_cb, h1, h2, isSent]
      · cases h4 : scan_next_page_for_session st.sessions st.logs
            SEARCH_LINE_LIMIT uid kw with
        | none => simp [more_cb, h1, h2, h4, isSent]
        | some r =>
          obtain ⟨results, more, ss'⟩ := r
          by_cases h5 : results = []
          · simp [more_cb, h1, h2, h4, h5, isSent]
          · simp [more_cb, h1, h2, h4, h5, isSent]

/-- C6 counterexample.  An entitled, non-cooling-down user issues
`More`; the scan runs and advances the session cursor (from −1 to 0,
finishing the session), yet because the page is empty no timestamp is
recorded — so the timestamp is *not* recorded once per accepted
page-fetch before scanning. -/
theorem claim_c6_counterexample :
    (has_active_key (Db.mk [] [(1, 100)]).users 50 1).1 = true ∧
    (is_on_cooldown ([] : List (Nat × Int)) 50 1).1 = false ∧
    (more_cb (BotState.mk (Db.mk [] [(1, 100)]) [((1, "z"), freshSession)] [] ["aaa"])
        50 1 "z").1 = Outcome.noResults ∧
    (more_cb (BotState.mk (Db.mk [] [(1, 100)]) [((1, "z"), freshSession)] [] ["aaa"])
        50 1 "z").2.last_search = [] ∧
    getSession
        (more_cb (BotState.mk (Db.mk [] [(1, 100)]) [((1, "z"), freshSession)] [] ["aaa"])
          50 1 "z").2.sessions 1 "z" = some (Session.mk 0 0 true) :=
  ⟨by decide, by decide, by decide, by decide, by decide⟩

/-- C10 witness at a fresh session over a two-line corpus. -/
theorem claim_c10_witness :
    -1 ≤ freshSession.last_scanned_pos ∧
    freshSession.last_scanned_pos ≤ ((["a", "b"] : List String).length : Int) - 1 ∧
    (∀ i ∈ intRange (freshSession.last_scanned_pos + 1) ((["a", "b"] : List String).length : Int),
        0 ≤ i ∧ i < ((["a", "b"] : List String).length : Int)) ∧
    ∃ r, scanSession ["a", "b"] 2 "x" freshSession = some r :=
  claim_c10_cursor_in_bounds ReachableSession.fresh

end TxtBot
